import Mathlib

/-!
Verification of the guarded query-and-analysis execution engine of a
PostgreSQL MCP server (src/index.js, src/tools.js).  JavaScript strings
are modelled as `List Char`; the string primitives the guards use
(`trim`, `toLowerCase`, `startsWith`, `includes`, `slice`) are embedded
below, and the tool handlers are embedded as pure functions over an
explicit bounded-pool state, with the database round-trip and the
user-code evaluation supplied as oracle arguments.
-/

namespace DataMcp

/-- Whitespace characters recognised by the model of JavaScript
`String.prototype.trim` (space, tab, line feed, vertical tab, form feed,
carriage return). -/
def wsChars : List Char := [' ', '\t', '\n', Char.ofNat 11, Char.ofNat 12, '\r']

/-- Decidable whitespace test used by the model of `trim`. -/
def isWS (c : Char) : Bool := decide (c ∈ wsChars)

/-- Model of JavaScript `String.prototype.trim`: drop whitespace from both
ends of the string. -/
def jsTrim (s : List Char) : List Char :=
  ((s.dropWhile isWS).reverse.dropWhile isWS).reverse

/-- Model of JavaScript `String.prototype.toLowerCase` on the ASCII letters
the guards care about. -/
def jsToLower (s : List Char) : List Char := s.map Char.toLower

/-- Model of JavaScript `String.prototype.includes`: `hasSub pat s` is true
iff `pat` occurs as a contiguous substring of `s`. -/
def hasSub (pat : List Char) : List Char → Bool
  | [] => pat.isEmpty
  | c :: cs => pat.isPrefixOf (c :: cs) || hasSub pat cs

/-- Source function `isReadOnlyQuery` (src/tools.js lines 5-10): after
`trim().toLowerCase()` the query must start with `select`, `with`, or
`explain`. -/
def isReadOnlyQuery (query : List Char) : Bool :=
  let trimmedQuery := jsToLower (jsTrim query)
  "select".toList.isPrefixOf trimmedQuery ||
    "with".toList.isPrefixOf trimmedQuery ||
      "explain".toList.isPrefixOf trimmedQuery

/-- Source function `hasLimitClause` (src/tools.js lines 13-16): after
`trim().toLowerCase()` the query must contain the substring `limit`. -/
def hasLimitClause (query : List Char) : Bool :=
  let trimmedQuery := jsToLower (jsTrim query)
  hasSub "limit".toList trimmedQuery

/-- Verdict of the Query Guard, distinguishing the two rejection reasons the
handlers report through distinct error messages. -/
inductive GuardVerdict where
  | accepted
  | notReadOnly
  | missingBound
  deriving DecidableEq

/-- Query Guard classifier: the two source checks in the order every handler
performs them (read-only prefix first, then the bound token). -/
def classifyQuery (query : List Char) : GuardVerdict :=
  if !isReadOnlyQuery query then .notReadOnly
  else if !hasLimitClause query then .missingBound
  else .accepted

/-- Model of the regular expression `import\s+` from the denylist: an
occurrence of the literal `import` followed by at least one whitespace
character. -/
def matchesImportWs : List Char → Bool
  | [] => false
  | c :: cs =>
      ("import".toList.isPrefixOf (c :: cs) &&
        (match (c :: cs).drop 6 with
          | d :: _ => isWS d
          | [] => false)) || matchesImportWs cs

/-- Source list `dangerousPatterns` (src/tools.js lines 20-42): the fixed
ordered denylist of pattern/name pairs scanned by `isSafeAnalysisCode`.
Every regex in the source except `import\s+` is a literal substring. -/
def dangerousPatterns : List ((List Char → Bool) × String) :=
  [ (hasSub "process.env".toList, "process.env access"),
    (hasSub "require(".toList, "require() function"),
    (matchesImportWs, "import statements"),
    (hasSub "eval(".toList, "eval() function"),
    (hasSub "Function(".toList, "Function constructor"),
    (hasSub "setTimeout(".toList, "setTimeout() function"),
    (hasSub "setInterval(".toList, "setInterval() function"),
    (hasSub "global.".toList, "global object access"),
    (hasSub "window.".toList, "window object access"),
    (hasSub "document.".toList, "document object access"),
    (hasSub "fetch(".toList, "fetch() function"),
    (hasSub "XMLHttpRequest".toList, "XMLHttpRequest"),
    (hasSub "http".toList, "http is not allowed"),
    (hasSub ".query(".toList, "query() method calls"),
    (hasSub ".connect(".toList, "connect() method calls"),
    (hasSub ".pool".toList, "pool property access"),
    (hasSub "pg.".toList, "pg module access"),
    (hasSub "postgres".toList, "postgres references"),
    (hasSub "database".toList, "database references"),
    (hasSub "readCSV".toList, "readCSV is not allowed"),
    (hasSub "password".toList, "password is not allowed") ]

/-- Source function `isSafeAnalysisCode` (src/tools.js lines 19-51): scan
`dangerousPatterns` in order; the first matching pattern yields its name
(code blocked), no match yields `none` (code safe). -/
def isSafeAnalysisCode (code : List Char) : Option String :=
  (dangerousPatterns.find? fun pr => pr.1 code).map fun pr => pr.2

/-- Hard ceiling on returned rows: the literal 5000 compared against the cap
in every handler. -/
def hardCeiling : Int := 5000

/-- Default row cap of the query handler in src/tools.js line 136
(destructuring default limit = 1000). -/
def queryDefaultLimit : Int := 1000

/-- Default row cap of the analyze handler in src/tools.js line 210
(destructuring default limit = 1000). -/
def analyzeDefaultLimit : Int := 1000

/-- Default row cap of the query handler in the logging revision of the tools
module (src/unnamed/part_001 line 153, limit = 100). -/
def loggedQueryDefaultLimit : Int := 100

/-- Model of JavaScript `Array.prototype.slice(0, e)`: a negative end index
counts from the end of the array, a nonnegative one is clamped to the
length. -/
def jsSliceTo {α : Type} (rows : List α) (e : Int) : List α :=
  let len : Int := rows.length
  let stop : Int := if e < 0 then max (len + e) 0 else min e len
  rows.take stop.toNat

/-- Reply of the query tool: the success envelope carries the shaped rows and
the total row count, a failure envelope carries its message.  The literal
text layout of the envelope is abstracted to the data it carries. -/
inductive ToolReply (α : Type) where
  | success (rows : List α) (total : Nat)
  | failure (msg : String)
  deriving DecidableEq

/-- Reply of the analyze tool: the success envelope carries the evaluation
result and the analyzed/total row counts. -/
inductive AnalyzeReply (β : Type) where
  | success (result : β) (analyzed : Nat) (total : Nat)
  | failure (msg : String)
  deriving DecidableEq

/-- Outcome of a handler body: either a returned envelope or a JavaScript
exception propagating out of the try block. -/
inductive Boundary (γ : Type) where
  | envelope (reply : γ)
  | thrown (msg : String)
  deriving DecidableEq

/-- Truth test for the envelope outcome. -/
def Boundary.isEnvelope {γ : Type} : Boundary γ → Bool
  | .envelope _ => true
  | .thrown _ => false

/-- Result of one tool call over the synthetic bounded pool: the outcome, the
number of connections available afterwards, and whether a connection was
leased during the call. -/
structure CallResult (γ : Type) where
  outcome : Boundary γ
  pool : Nat
  leased : Bool
  deriving DecidableEq

/-- Error message thrown on a wrong query prefix. -/
def readOnlyErrMsg : String :=
  "Only SELECT, WITH, and EXPLAIN queries are allowed for security reasons"

/-- Error message thrown on a missing LIMIT token. -/
def limitErrMsg : String :=
  "All queries must include a LIMIT clause for safety reasons"

/-- Error message thrown on a cap above the hard ceiling. -/
def capErrMsg : String :=
  "Limit cannot exceed 5000 rows for performance reasons"

/-- Error raised by the bounded pool when no connection is available. -/
def poolErrMsg : String := "timeout exceeded when trying to connect"

/-- Error message thrown on a denylisted analysis-code pattern. -/
def blockedCodeMsg (pat : String) : String :=
  "Analysis code contains potentially dangerous patterns and is not allowed for security reasons. Blocked pattern: " ++ pat

/-- Embedding of the try/catch wrapper every handler ends with: a thrown
error is converted into a failure envelope by `fail`; a returned envelope
passes through. -/
def catchAll {γ : Type} (fail : String → γ) (r : CallResult γ) : CallResult γ :=
  match r.outcome with
  | .thrown m => ⟨.envelope (fail m), r.pool, r.leased⟩
  | .envelope _ => r

/-- Embedding of the query tool handler body (src/tools.js lines 136-167):
the guard checks and the cap check in source order, the connection lease
from the bounded pool, the execution of the text (outcome supplied by the
oracle argument `exec`), the slice to the cap, and the release of the
connection on both the success path and the execution-error path (the
finally block: the available count goes from pool to pool - 1 and back). -/
def queryBody {α : Type} (query : List Char) (limit : Int) (pool : Nat)
    (exec : Except String (List α)) : CallResult (ToolReply α) :=
  if !isReadOnlyQuery query then ⟨.thrown readOnlyErrMsg, pool, false⟩
  else if !hasLimitClause query then ⟨.thrown limitErrMsg, pool, false⟩
  else if hardCeiling < limit then ⟨.thrown capErrMsg, pool, false⟩
  else if pool = 0 then ⟨.thrown poolErrMsg, pool, false⟩
  else
    match exec with
    | .error e => ⟨.thrown e, pool - 1 + 1, true⟩
    | .ok rows =>
        ⟨.envelope (.success (jsSliceTo rows limit) rows.length), pool - 1 + 1, true⟩

/-- Embedding of the full query tool: body wrapped in the catch clause of
src/tools.js lines 168-177. -/
def queryTool {α : Type} (query : List Char) (limit : Int) (pool : Nat)
    (exec : Except String (List α)) : CallResult (ToolReply α) :=
  catchAll (fun m => .failure ("Error executing query: " ++ m))
    (queryBody query limit pool exec)

/-- Query tool entry point applying the destructuring default cap when the
caller omits the limit argument. -/
def queryToolEntry {α : Type} (query : List Char) (limitArg : Option Int)
    (pool : Nat) (exec : Except String (List α)) : CallResult (ToolReply α) :=
  queryTool query (limitArg.getD queryDefaultLimit) pool exec

/-- Embedding of the analyze tool handler body (src/tools.js lines 210-254):
the same guard and cap checks, then the Code Guard before the connection
lease, then lease, execution, slice, evaluation of the analysis code on the
shaped rows (outcome supplied by the oracle argument `evalCode`), and the
release of the connection on the success, execution-error and
evaluation-error paths (the finally block). -/
def analyzeBody {α β : Type} (query code : List Char) (limit : Int)
    (pool : Nat) (exec : Except String (List α))
    (evalCode : List α → Except String β) : CallResult (AnalyzeReply β) :=
  if !isReadOnlyQuery query then ⟨.thrown readOnlyErrMsg, pool, false⟩
  else if !hasLimitClause query then ⟨.thrown limitErrMsg, pool, false⟩
  else if hardCeiling < limit then ⟨.thrown capErrMsg, pool, false⟩
  else
    match isSafeAnalysisCode code with
    | some name => ⟨.thrown (blockedCodeMsg name), pool, false⟩
    | none =>
        if pool = 0 then ⟨.thrown poolErrMsg, pool, false⟩
        else
          match exec with
          | .error e => ⟨.thrown e, pool - 1 + 1, true⟩
          | .ok rows =>
              let shaped := jsSliceTo rows limit
              match evalCode shaped with
              | .error e => ⟨.thrown e, pool - 1 + 1, true⟩
              | .ok v =>
                  ⟨.envelope (.success v shaped.length rows.length),
                    pool - 1 + 1, true⟩

/-- Embedding of the full analyze tool: body wrapped in the catch clause of
src/tools.js lines 255-264. -/
def analyzeTool {α β : Type} (query code : List Char) (limit : Int)
    (pool : Nat) (exec : Except String (List α))
    (evalCode : List α → Except String β) : CallResult (AnalyzeReply β) :=
  catchAll (fun m => .failure ("Error during analysis: " ++ m))
    (analyzeBody query code limit pool exec evalCode)

/-- Analyze tool entry point applying the destructuring default cap when the
caller omits the limit argument. -/
def analyzeToolEntry {α β : Type} (query code : List Char)
    (limitArg : Option Int) (pool : Nat) (exec : Except String (List α))
    (evalCode : List α → Except String β) : CallResult (AnalyzeReply β) :=
  analyzeTool query code (limitArg.getD analyzeDefaultLimit) pool exec evalCode

/-- Environments registered at process start: the keys of the pools object of
src/index.js lines 17-39.  Pools are created once and never added or removed
at runtime. -/
def registeredEnvironments : List String := ["default", "dev", "prod"]

/-- Own property names of Object.prototype in ECMAScript: the pools object
of src/index.js is an object literal, so a property read on it falls back to
these inherited names, and every one of them yields a truthy value (a
function, or Object.prototype itself for the last one). -/
def objectPrototypeKeys : List String :=
  ["constructor", "hasOwnProperty", "isPrototypeOf", "propertyIsEnumerable",
    "toLocaleString", "toString", "valueOf", "__defineGetter__",
    "__defineSetter__", "__lookupGetter__", "__lookupSetter__", "__proto__"]

/-- Source method `Database.setEnvironment` (src/index.js lines 44-50): the
truthiness test on `this.pools[environment]` walks the prototype chain of
the pools object literal, so it passes for the three own keys and for every
inherited Object.prototype property name; on success the current pool is
switched to the given name, otherwise the method throws and leaves the
selection untouched. -/
def setEnvironment (environment : String) : Except String String :=
  if environment ∈ registeredEnvironments ∨ environment ∈ objectPrototypeKeys
  then .ok environment
  else .error ("Environment " ++ environment ++ " not found")

/-- State of the environment subsystem: the active pool name together with
the number of revert-to-default timers scheduled and not yet fired. -/
structure EnvState where
  current : String
  pendingReverts : Nat
  deriving DecidableEq

/-- Embedding of the setEnvironment tool body (src/tools.js lines 97-110):
on success the selection is swapped and setTimeout schedules one more revert
timer; the source never calls clearTimeout, so no previously pending timer
is cancelled.  On a throw the state is untouched and the exception escapes
to the catch. -/
def setEnvironmentBody (environment : String) (s : EnvState) :
    Boundary String × EnvState :=
  match setEnvironment environment with
  | .error e => (.thrown e, s)
  | .ok c =>
      (.envelope ("Environment set to " ++ environment),
        ⟨c, s.pendingReverts + 1⟩)

/-- Embedding of the setEnvironment tool: body wrapped in the catch clause of
src/tools.js lines 111-120. -/
def setEnvironmentTool (environment : String) (s : EnvState) :
    Boundary String × EnvState :=
  match setEnvironmentBody environment s with
  | (.thrown m, s2) => (.envelope ("Error setting environment: " ++ m), s2)
  | r => r

/-- Firing of one pending revert timer: the setTimeout callback runs
setEnvironment with the name default (src/tools.js lines 100-102). -/
def fireRevert (s : EnvState) : EnvState :=
  match setEnvironment "default" with
  | .ok c => ⟨c, s.pendingReverts - 1⟩
  | .error _ => ⟨s.current, s.pendingReverts - 1⟩

/-! Helper lemmas about lists, substrings and trimming. -/

/-- Bridge from the Boolean prefix test to the prefix relation. -/
theorem prefixOfIff {l₁ l₂ : List Char} :
    l₁.isPrefixOf l₂ = true ↔ l₁ <+: l₂ := List.isPrefixOf_iff_prefix

/-- Restatement of the library characterization of infixes of a cons. -/
theorem midConsIff {α : Type} {l₁ l₂ : List α} {a : α} :
    l₁ <:+: a :: l₂ ↔ l₁ <+: a :: l₂ ∨ l₁ <:+: l₂ := List.infix_cons_iff

/-- Restatement of the library lemma relating reversal and infixes. -/
theorem midReverse {α : Type} {l m : List α} :
    l.reverse <:+: m.reverse ↔ l <:+: m := List.reverse_infix

/-- A suffix is an infix. -/
theorem midOfSuffix {α : Type} {l m : List α} (h : l <:+ m) : l <:+: m := by
  obtain ⟨t, rfl⟩ := h
  exact ⟨t, [], by simp⟩

/-- An infix of an infix is an infix. -/
theorem midTrans {α : Type} {a b c : List α} (h1 : a <:+: b) (h2 : b <:+: c) :
    a <:+: c := h1.trans h2

/-- Correctness of the Boolean substring test `hasSub` with respect to the
infix relation. -/
theorem hasSub_iff {pat s : List Char} : hasSub pat s = true ↔ pat <:+: s := by
  induction s with
  | nil =>
      simp only [hasSub, List.isEmpty_iff]
      constructor
      · rintro rfl; exact ⟨[], [], rfl⟩
      · intro h
        have := List.sublist_nil.mp h.sublist
        exact this
  | cons c cs ih =>
      simp only [hasSub, Bool.or_eq_true, prefixOfIff, ih]
      exact midConsIff.symm

/-- Dropping a prefix of elements satisfying p preserves any infix whose head
does not satisfy p. -/
theorem infix_dropWhile {α : Type} {p : α → Bool} {c : α} {l m : List α}
    (hc : p c = false) (h : (c :: l) <:+: m) :
    (c :: l) <:+: m.dropWhile p := by
  induction m with
  | nil =>
      have := List.sublist_nil.mp h.sublist
      simp at this
  | cons d t ih =>
      rcases midConsIff.mp h with hpre | hinf
      · obtain ⟨u, hu⟩ := hpre
        have hcd : c = d := by
          have := congrArg (fun x => x.head?) hu
          simpa using this
        have hpd : p d = false := hcd ▸ hc
        rw [List.dropWhile_cons, if_neg (by simp [hpd])]
        exact h
      · have h2 := ih hinf
        rw [List.dropWhile_cons]
        by_cases hpd : p d = true
        · rw [if_pos (by simp [hpd])]
          exact h2
        · rw [if_neg (by simpa using hpd)]
          exact h


/-- Lower-casing fixes every whitespace character. -/
theorem toLower_ws {c : Char} (h : isWS c = true) : Char.toLower c = c := by
  have hmem : c ∈ wsChars := by simpa [isWS] using h
  simp only [wsChars, List.mem_cons, List.not_mem_nil, or_false] at hmem
  rcases hmem with rfl | rfl | rfl | rfl | rfl | rfl <;> decide

/-- Lower-casing a list of whitespace characters is the identity. -/
theorem jsToLower_ws {w : List Char} (hw : ∀ c ∈ w, isWS c = true) :
    jsToLower w = w := by
  induction w with
  | nil => rfl
  | cons a t ih =>
      have ha := toLower_ws (hw a (List.mem_cons_self a t))
      have ht := ih fun c hc => hw c (List.mem_cons_of_mem a hc)
      simp only [jsToLower, List.map_cons, List.cons.injEq]
      exact ⟨ha, by simpa [jsToLower] using ht⟩

/-- Decomposition of a string into leading whitespace, its trimmed core and
trailing whitespace. -/
theorem jsTrim_decomp (s : List Char) :
    ∃ w1 w2, (∀ c ∈ w1, isWS c = true) ∧ (∀ c ∈ w2, isWS c = true) ∧
      s = w1 ++ (jsTrim s ++ w2) := by
  refine ⟨s.takeWhile isWS,
    ((s.dropWhile isWS).reverse.takeWhile isWS).reverse, ?_, ?_, ?_⟩
  · intro c hc
    exact List.mem_takeWhile_imp hc
  · intro c hc
    exact List.mem_takeWhile_imp (List.mem_reverse.mp hc)
  · conv_lhs => rw [← List.takeWhile_append_dropWhile (p := isWS) (l := s)]
    congr 1
    have h1 : (s.dropWhile isWS).reverse
        = (s.dropWhile isWS).reverse.takeWhile isWS
          ++ (s.dropWhile isWS).reverse.dropWhile isWS :=
      (List.takeWhile_append_dropWhile (p := isWS) _).symm
    have h2 := congrArg List.reverse h1
    simp only [List.reverse_reverse, List.reverse_append] at h2
    exact h2

/-- The trimmed core of a string is one of its infixes. -/
theorem jsTrim_mid (s : List Char) : jsTrim s <:+: s := by
  obtain ⟨w1, w2, _, _, hs⟩ := jsTrim_decomp s
  exact ⟨w1, w2, by rw [List.append_assoc]; exact hs.symm⟩

/-- Sandwich lemma: an occurrence of a nonempty pattern without whitespace
inside a whitespace-padded string lies inside the core. -/
theorem infix_middle {α : Type} {p : α → Bool} {l m w1 w2 : List α}
    (hw1 : ∀ c ∈ w1, p c = true) (hw2 : ∀ c ∈ w2, p c = true)
    (hl : ∀ c ∈ l, p c = false) (hne : l ≠ [])
    (h : l <:+: w1 ++ (m ++ w2)) : l <:+: m := by
  obtain ⟨c, l2, rfl⟩ : ∃ c l2, l = c :: l2 := by
    cases l with
    | nil => exact absurd rfl hne
    | cons a b => exact ⟨a, b, rfl⟩
  have hc : p c = false := hl c (List.mem_cons_self c l2)
  have h1 : (c :: l2) <:+: ((w1 ++ (m ++ w2)).dropWhile p) :=
    infix_dropWhile hc h
  rw [List.dropWhile_append_of_pos hw1, List.dropWhile_append] at h1
  split at h1
  · rename_i hEmpty
    exfalso
    have hmem : c ∈ w2.dropWhile p := h1.sublist.subset (List.mem_cons_self c l2)
    have hmem2 : c ∈ w2 := (List.dropWhile_sublist (p := p)).subset hmem
    rw [hw2 c hmem2] at hc
    simp at hc
  · have h3 : (c :: l2).reverse <:+: (m.dropWhile p ++ w2).reverse :=
      midReverse.mpr h1
    rw [List.reverse_append] at h3
    obtain ⟨d, t, hrev⟩ : ∃ d t, (c :: l2).reverse = d :: t := by
      cases hr : (c :: l2).reverse with
      | nil =>
          have := congrArg List.length hr
          simp at this
      | cons d t => exact ⟨d, t, rfl⟩
    have hd : p d = false := by
      have hdm : d ∈ (c :: l2).reverse := by rw [hrev]; exact List.mem_cons_self d t
      exact hl d (List.mem_reverse.mp hdm)
    rw [hrev] at h3
    have h4 := infix_dropWhile hd h3
    rw [List.dropWhile_append_of_pos
      (fun a ha => hw2 a (List.mem_reverse.mp ha))] at h4
    have h5 : (d :: t) <:+: (m.dropWhile p).reverse :=
      midTrans h4 (midOfSuffix (List.dropWhile_suffix p))
    rw [← hrev] at h5
    have h6 : (c :: l2) <:+: m.dropWhile p := midReverse.mp h5
    exact midTrans h6 (midOfSuffix (List.dropWhile_suffix p))

/-- Trimming is invisible to the substring test for the bound token: the
characters of the token are not whitespace, so an occurrence in the full
lower-cased text is an occurrence in the trimmed lower-cased text and
conversely. -/
theorem hasLimitClause_trim (q : List Char) :
    hasLimitClause q = hasSub "limit".toList (jsToLower q) := by
  have step : hasSub "limit".toList (jsToLower (jsTrim q)) = true ↔
      hasSub "limit".toList (jsToLower q) = true := by
    rw [hasSub_iff, hasSub_iff]
    constructor
    · intro h
      have hmap : jsToLower (jsTrim q) <:+: jsToLower q := by
        have := (jsTrim_mid q).map Char.toLower
        simpa [jsToLower] using this
      exact midTrans h hmap
    · intro h
      obtain ⟨w1, w2, hw1, hw2, hs⟩ := jsTrim_decomp q
      have hq : jsToLower q = w1 ++ (jsToLower (jsTrim q) ++ w2) := by
        conv_lhs => rw [hs]
        simp only [jsToLower, List.map_append]
        rw [show List.map Char.toLower w1 = w1 from jsToLower_ws hw1,
          show List.map Char.toLower w2 = w2 from jsToLower_ws hw2]
      rw [hq] at h
      exact infix_middle hw1 hw2 (by decide) (by decide) h
  have h1 : hasLimitClause q = hasSub "limit".toList (jsToLower (jsTrim q)) := rfl
  rw [h1]
  cases h2 : hasSub "limit".toList (jsToLower q) with
  | true => exact step.mpr h2
  | false =>
      cases h3 : hasSub "limit".toList (jsToLower (jsTrim q)) with
      | true => rw [← h2, ← step.mp h3]
      | false => rfl

/-- Characterization of the first match found by a linear scan: if position i
matches and every earlier position does not, the scan returns the element at
position i. -/
theorem find?_first {α : Type} (p : α → Bool) (l : List α) :
    ∀ (i : Nat) (h : i < l.length),
      p (l.get ⟨i, h⟩) = true →
      (∀ (j : Nat) (hj : j < l.length), j < i → p (l.get ⟨j, hj⟩) = false) →
      l.find? p = some (l.get ⟨i, h⟩) := by
  induction l with
  | nil =>
      intro i h
      simp at h
  | cons a t ih =>
      intro i h hp hbef
      cases i with
      | zero =>
          simp only [List.get] at hp ⊢
          exact List.find?_cons_of_pos t hp
      | succ i =>
          have ha : p a = false := hbef 0 (Nat.succ_pos t.length) (Nat.succ_pos i)
          rw [List.find?_cons_of_neg t (by simp [ha])]
          have h2 : i < t.length := Nat.lt_of_succ_lt_succ h
          have hp2 : p (t.get ⟨i, h2⟩) = true := by
            simpa [List.get] using hp
          have hb2 : ∀ (j : Nat) (hj : j < t.length), j < i →
              p (t.get ⟨j, hj⟩) = false := by
            intro j hj hji
            have := hbef (j + 1) (Nat.succ_lt_succ hj) (Nat.succ_lt_succ hji)
            simpa [List.get] using this
          have := ih i h2 hp2 hb2
          simpa [List.get] using this

/-- The catch wrapper does not touch the pool count. -/
theorem catchAll_pool {γ : Type} (fail : String → γ) (r : CallResult γ) :
    (catchAll fail r).pool = r.pool := by
  unfold catchAll
  rcases r with ⟨o, p, l⟩
  cases o <;> rfl

/-- The catch wrapper does not touch the leased flag. -/
theorem catchAll_leased {γ : Type} (fail : String → γ) (r : CallResult γ) :
    (catchAll fail r).leased = r.leased := by
  unfold catchAll
  rcases r with ⟨o, p, l⟩
  cases o <;> rfl

/-- The catch wrapper always yields an envelope. -/
theorem catchAll_isEnvelope {γ : Type} (fail : String → γ) (r : CallResult γ) :
    Boundary.isEnvelope (catchAll fail r).outcome = true := by
  unfold catchAll
  rcases r with ⟨o, p, l⟩
  cases o <;> rfl

/-- The query handler body restores the pool count on every path. -/
theorem queryBody_pool {α : Type} (query : List Char) (limit : Int)
    (pool : Nat) (exec : Except String (List α)) :
    (queryBody query limit pool exec).pool = pool := by
  unfold queryBody
  split
  · rfl
  split
  · rfl
  split
  · rfl
  split
  · rfl
  rename_i hpool
  cases exec <;> simp <;> omega

/-- The analyze handler body restores the pool count on every path. -/
theorem analyzeBody_pool {α β : Type} (query code : List Char) (limit : Int)
    (pool : Nat) (exec : Except String (List α))
    (evalCode : List α → Except String β) :
    (analyzeBody query code limit pool exec evalCode).pool = pool := by
  unfold analyzeBody
  split
  · rfl
  split
  · rfl
  split
  · rfl
  split
  · rfl
  split
  · rfl
  rename_i hpool
  cases exec with
  | error e => simp; omega
  | ok rows =>
      simp only
      split <;> simp <;> omega

/-! Claim theorems. -/

/-- Spec-side Query Guard acceptance, following the claim wording: the
trimmed lower-cased text starts with select, with, or explain, and the
lower-cased text (untrimmed) contains the substring limit anywhere. -/
def queryGuardSpecAccepts (query : List Char) : Bool :=
  ("select".toList.isPrefixOf (jsToLower (jsTrim query)) ||
    "with".toList.isPrefixOf (jsToLower (jsTrim query)) ||
      "explain".toList.isPrefixOf (jsToLower (jsTrim query)))
    && hasSub "limit".toList (jsToLower query)

/-- Equality of the spec-side acceptance with the conjunction of the two
source checks, the bound check taken over the untrimmed lower-cased text. -/
theorem queryGuardSpecAccepts_eq (query : List Char) :
    queryGuardSpecAccepts query
      = (isReadOnlyQuery query && hasSub "limit".toList (jsToLower query)) := rfl

/-- C2: the Query Guard accepts exactly the texts whose trimmed lower-cased
form starts with select, with, or explain and whose lower-cased form
contains the substring limit anywhere; otherwise it rejects, reporting a
wrong prefix when the prefix check fails and a missing bound when only the
bound check fails. -/
theorem c2_query_guard (query : List Char) :
    (classifyQuery query = .accepted ↔ queryGuardSpecAccepts query = true) ∧
    (classifyQuery query = .notReadOnly ↔ isReadOnlyQuery query = false) ∧
    (classifyQuery query = .missingBound ↔
      (isReadOnlyQuery query = true ∧
        hasSub "limit".toList (jsToLower query) = false)) := by
  rw [queryGuardSpecAccepts_eq, ← hasLimitClause_trim]
  cases hro : isReadOnlyQuery query <;> cases hlc : hasLimitClause query <;>
    simp [classifyQuery, hro, hlc]

/-- C3: the Code Guard scans the fixed ordered denylist; it accepts exactly
when no pattern matches, and when some pattern matches it reports the name
of the first matching pattern in list order, wherever in the code the match
occurs. -/
theorem c3_code_guard (code : List Char) :
    (isSafeAnalysisCode code = none ↔
      ∀ pr ∈ dangerousPatterns, pr.1 code = false) ∧
    (∀ (i : Nat) (h : i < dangerousPatterns.length),
      (dangerousPatterns.get ⟨i, h⟩).1 code = true →
      (∀ (j : Nat) (hj : j < dangerousPatterns.length), j < i →
        (dangerousPatterns.get ⟨j, hj⟩).1 code = false) →
      isSafeAnalysisCode code = some (dangerousPatterns.get ⟨i, h⟩).2) := by
  constructor
  · unfold isSafeAnalysisCode
    cases h : dangerousPatterns.find? (fun pr => pr.1 code) with
    | none =>
        simp only [h, Option.map_none']
        have hall := List.find?_eq_none.mp h
        constructor
        · intro _ pr hpr
          have := hall pr hpr
          simpa using this
        · intro _
          trivial
    | some pr =>
        simp only [h, Option.map_some']
        constructor
        · intro hcontra
          cases hcontra
        · intro hall
          have hp := List.find?_some h
          have hmem := List.mem_of_find?_eq_some h
          rw [hall pr hmem] at hp
          cases hp
  · intro i h hp hbef
    unfold isSafeAnalysisCode
    rw [find?_first _ _ i h hp hbef]
    rfl

/-- C3 witness: a benign statement followed by a comment naming process.env
is rejected with the name of the first pattern of the denylist. -/
theorem c3_code_guard_witness :
    isSafeAnalysisCode "return data.length; // process.env.SECRET".toList
      = some "process.env access" := by
  have h := (c3_code_guard "return data.length; // process.env.SECRET".toList).2
    0 (by decide) (by decide)
    (fun j hj hji => absurd hji (Nat.not_lt_zero j))
  exact h

/-- C1: both execution paths restore the pool count on every exit path
(guard rejection before the lease, execution error, evaluation error and
success), and with a capacity-one pool two sequential calls both complete,
the second one successfully, even when the first call fails its guard check
or its evaluation. -/
theorem c1_connection_release :
    (∀ (α : Type) (query : List Char) (limit : Int) (pool : Nat)
        (exec : Except String (List α)),
      (queryTool query limit pool exec).pool = pool) ∧
    (∀ (α β : Type) (query code : List Char) (limit : Int) (pool : Nat)
        (exec : Except String (List α)) (evalCode : List α → Except String β),
      (analyzeTool query code limit pool exec evalCode).pool = pool) ∧
    ((queryTool "DELETE FROM t LIMIT 1".toList 1000 1
        (Except.ok ([5] : List Nat))).pool = 1 ∧
      (queryTool "select id from t limit 2".toList 1000
          (queryTool "DELETE FROM t LIMIT 1".toList 1000 1
            (Except.ok ([5] : List Nat))).pool
          (Except.ok ([5] : List Nat))).outcome
        = Boundary.envelope (ToolReply.success [5] 1)) ∧
    ((analyzeTool "select id from t limit 2".toList
        "return data.length;".toList 1000 1 (Except.ok ([5] : List Nat))
        (fun _ => (Except.error "boom" : Except String Nat))).pool = 1 ∧
      (queryTool "select id from t limit 2".toList 1000
          (analyzeTool "select id from t limit 2".toList
            "return data.length;".toList 1000 1 (Except.ok ([5] : List Nat))
            (fun _ => (Except.error "boom" : Except String Nat))).pool
          (Except.ok ([5] : List Nat))).outcome
        = Boundary.envelope (ToolReply.success [5] 1)) := by
  refine ⟨?_, ?_, ⟨?_, ?_⟩, ⟨?_, ?_⟩⟩
  · intro α query limit pool exec
    rw [queryTool, catchAll_pool, queryBody_pool]
  · intro α β query code limit pool exec evalCode
    rw [analyzeTool, catchAll_pool, analyzeBody_pool]
  · decide
  · decide
  · decide
  · decide

/-- C8: every operation returns its outcome as data inside the normal result
envelope; for every combination of inputs and oracle outcomes (guard
rejection, execution error, evaluation error, unknown environment) nothing
is thrown across the engine boundary. -/
theorem c8_failure_as_data :
    (∀ (α : Type) (query : List Char) (limit : Int) (pool : Nat)
        (exec : Except String (List α)),
      Boundary.isEnvelope (queryTool query limit pool exec).outcome = true) ∧
    (∀ (α β : Type) (query code : List Char) (limit : Int) (pool : Nat)
        (exec : Except String (List α)) (evalCode : List α → Except String β),
      Boundary.isEnvelope
        (analyzeTool query code limit pool exec evalCode).outcome = true) ∧
    (∀ (environment : String) (s : EnvState),
      Boundary.isEnvelope (setEnvironmentTool environment s).1 = true) := by
  refine ⟨?_, ?_, ?_⟩
  · intro α query limit pool exec
    exact catchAll_isEnvelope _ _
  · intro α β query code limit pool exec evalCode
    exact catchAll_isEnvelope _ _
  · intro environment s
    unfold setEnvironmentTool setEnvironmentBody
    cases h : setEnvironment environment <;> simp [h, Boundary.isEnvelope]

/-- C5: a requested cap above the hard ceiling is rejected outright on the
query path: no connection is leased, the pool is untouched, no rows are ever
returned, and when the guard checks pass the reported rejection is the cap
error. -/
theorem c5_cap_rejection {α : Type} (query : List Char) (limit : Int)
    (pool : Nat) (exec : Except String (List α)) (hcap : hardCeiling < limit) :
    (queryTool query limit pool exec).leased = false ∧
    (queryTool query limit pool exec).pool = pool ∧
    (∀ (rows : List α) (total : Nat),
      (queryTool query limit pool exec).outcome ≠
        Boundary.envelope (ToolReply.success rows total)) ∧
    (isReadOnlyQuery query = true → hasLimitClause query = true →
      (queryTool query limit pool exec).outcome =
        Boundary.envelope (ToolReply.failure
          ("Error executing query: " ++ capErrMsg))) := by
  cases hro : isReadOnlyQuery query with
  | false =>
      have hbody : queryTool query limit pool exec
          = ⟨.envelope (.failure ("Error executing query: " ++ readOnlyErrMsg)),
              pool, false⟩ := by
        simp [queryTool, queryBody, catchAll, hro]
      rw [hbody]
      refine ⟨rfl, rfl, ?_, ?_⟩
      · intro rows total hcontra
        simp at hcontra
      · intro h
        simp at h
  | true =>
      cases hlc : hasLimitClause query with
      | false =>
          have hbody : queryTool query limit pool exec
              = ⟨.envelope (.failure ("Error executing query: " ++ limitErrMsg)),
                  pool, false⟩ := by
            simp [queryTool, queryBody, catchAll, hro, hlc]
          rw [hbody]
          refine ⟨rfl, rfl, ?_, ?_⟩
          · intro rows total hcontra
            simp at hcontra
          · intro _ h
            simp at h
      | true =>
          have hbody : queryTool query limit pool exec
              = ⟨.envelope (.failure ("Error executing query: " ++ capErrMsg)),
                  pool, false⟩ := by
            simp [queryTool, queryBody, catchAll, hro, hlc, hcap]
          rw [hbody]
          refine ⟨rfl, rfl, ?_, fun _ _ => rfl⟩
          intro rows total hcontra
          simp at hcontra

/-- C5 witness: a cap of 5001 on a well-formed query with one connection
available is rejected with the cap error. -/
theorem c5_cap_rejection_witness :
    hardCeiling < (5001 : Int) ∧
    (queryTool "select 1 limit 1".toList 5001 1
      (Except.ok ([7] : List Nat))).outcome
      = Boundary.envelope (ToolReply.failure
          ("Error executing query: " ++ capErrMsg)) := by
  refine ⟨by decide, ?_⟩
  exact (c5_cap_rejection "select 1 limit 1".toList 5001 1
    (Except.ok ([7] : List Nat)) (by decide)).2.2.2 (by decide) (by decide)

/-- Slicing by a cap given as a natural number is an ordinary take. -/
theorem jsSliceTo_natCap {α : Type} (rows : List α) (cap : Nat) :
    jsSliceTo rows (cap : Int) = rows.take cap := by
  simp only [jsSliceTo]
  rw [if_neg (by omega : ¬((cap : Int) < 0))]
  rcases le_total (cap : Int) (rows.length : Int) with hle | hle
  · rw [min_eq_left hle]
    have h : ((cap : Int)).toNat = cap := by omega
    rw [h]
  · rw [min_eq_right hle]
    have h : ((rows.length : Int)).toNat = rows.length := by omega
    rw [h]
    have hc : rows.length ≤ cap := by omega
    rw [List.take_of_length_le hc, List.take_of_length_le (Nat.le_refl _)]

/-- C6: for a cap within the ceiling the shaping step keeps exactly
min(length, cap, ceiling) rows, and re-shaping with an equal or larger cap
is a no-op. -/
theorem c6_shape {α : Type} (rows : List α) (cap ceiling : Nat)
    (hcap : cap ≤ ceiling) :
    (jsSliceTo rows (cap : Int)).length = min rows.length (min cap ceiling) ∧
    (∀ cap2 : Nat, cap ≤ cap2 →
      jsSliceTo (jsSliceTo rows (cap : Int)) (cap2 : Int)
        = jsSliceTo rows (cap : Int)) := by
  constructor
  · rw [jsSliceTo_natCap, List.length_take]
    omega
  · intro cap2 h2
    rw [jsSliceTo_natCap, jsSliceTo_natCap, List.take_take]
    congr 1
    omega

/-- C6 witness: shaping three rows with cap 2 under ceiling 5000 keeps two
rows and re-shaping with cap 3 changes nothing. -/
theorem c6_shape_witness :
    (jsSliceTo ([1, 2, 3] : List Nat) ((2 : Nat) : Int)).length
      = min ([1, 2, 3] : List Nat).length (min 2 5000) ∧
    jsSliceTo (jsSliceTo ([1, 2, 3] : List Nat) ((2 : Nat) : Int))
        ((3 : Nat) : Int)
      = jsSliceTo ([1, 2, 3] : List Nat) ((2 : Nat) : Int) := by
  have h := c6_shape ([1, 2, 3] : List Nat) 2 5000 (by decide)
  exact ⟨h.1, h.2 3 (by decide)⟩

/-- C7 counterexample: the name constructor is registered under no pool, yet
the truthiness test of src/index.js line 45 finds the inherited
Object.prototype member, so selection succeeds and the current selection is
mutated to constructor instead of failing unchanged. -/
theorem c7_counterexample :
    "constructor" ∉ registeredEnvironments ∧
    setEnvironment "constructor" = Except.ok "constructor" ∧
    (setEnvironmentTool "constructor" ⟨"default", 0⟩).2.current
      = "constructor" :=
  ⟨by decide, by rfl, by decide⟩

/-- C7 amended: selecting a name that is neither a registered environment
nor an inherited Object.prototype property name fails with the not-found
error and leaves the whole state unchanged; selecting a registered name
updates the current selection immediately; but a name of an inherited
Object.prototype property also passes the truthiness check, so selection
succeeds and sets the current selection to that name although no pool is
registered under it. -/
theorem c7_amended (s : EnvState) (environment : String) :
    ((environment ∉ registeredEnvironments ∧
        environment ∉ objectPrototypeKeys) →
      setEnvironment environment
        = Except.error ("Environment " ++ environment ++ " not found") ∧
      (setEnvironmentTool environment s).2 = s) ∧
    (environment ∈ registeredEnvironments →
      setEnvironment environment = Except.ok environment ∧
      (setEnvironmentTool environment s).2.current = environment) ∧
    (environment ∈ objectPrototypeKeys →
      setEnvironment environment = Except.ok environment ∧
      (setEnvironmentTool environment s).2.current = environment) := by
  refine ⟨?_, ?_, ?_⟩
  · intro hnot
    have h1 : setEnvironment environment
        = Except.error ("Environment " ++ environment ++ " not found") := by
      simp [setEnvironment, hnot.1, hnot.2]
    exact ⟨h1, by simp [setEnvironmentTool, setEnvironmentBody, h1]⟩
  · intro hmem
    have h1 : setEnvironment environment = Except.ok environment := by
      simp [setEnvironment, hmem]
    exact ⟨h1, by simp [setEnvironmentTool, setEnvironmentBody, h1]⟩
  · intro hmem
    have h1 : setEnvironment environment = Except.ok environment := by
      simp [setEnvironment, hmem]
    exact ⟨h1, by simp [setEnvironmentTool, setEnvironmentBody, h1]⟩

/-- C7 amended witness: selecting the name staging (neither registered nor
inherited) leaves the state unchanged, selecting dev switches to dev, and
selecting constructor switches to constructor. -/
theorem c7_amended_witness :
    (setEnvironmentTool "staging" ⟨"default", 0⟩).2 = ⟨"default", 0⟩ ∧
    (setEnvironmentTool "dev" ⟨"default", 0⟩).2.current = "dev" ∧
    (setEnvironmentTool "constructor" ⟨"default", 0⟩).2.current
      = "constructor" := by
  refine ⟨?_, ?_, ?_⟩
  · exact ((c7_amended ⟨"default", 0⟩ "staging").1 ⟨by decide, by decide⟩).2
  · exact ((c7_amended ⟨"default", 0⟩ "dev").2.1 (by decide)).2
  · exact ((c7_amended ⟨"default", 0⟩ "constructor").2.2 (by decide)).2

/-- C4 counterexample: after two valid selections within the dwell window two
revert timers are pending, not one — the source schedules a new setTimeout on
every success and never cancels the previous one. -/
theorem c4_counterexample :
    ((setEnvironmentTool "prod"
        (setEnvironmentTool "dev" ⟨"default", 0⟩).2).2).pendingReverts = 2 ∧
    ¬(((setEnvironmentTool "prod"
        (setEnvironmentTool "dev" ⟨"default", 0⟩).2).2).pendingReverts = 1) :=
  ⟨by decide, by decide⟩

/-- C4 amended: every successful selection updates the selection and
schedules one additional revert-to-default timer without cancelling any
previously pending one, so a reselection within the dwell window leaves two
pending reverts; each fired revert sets the selection back to default. -/
theorem c4_amended (s : EnvState) (environment : String)
    (hmem : environment ∈ registeredEnvironments) :
    (setEnvironmentTool environment s).2.current = environment ∧
    (setEnvironmentTool environment s).2.pendingReverts
      = s.pendingReverts + 1 ∧
    (fireRevert s).current = "default" ∧
    (fireRevert s).pendingReverts = s.pendingReverts - 1 := by
  have h1 : setEnvironment environment = Except.ok environment := by
    simp [setEnvironment, hmem]
  refine ⟨?_, ?_, rfl, rfl⟩
  · simp [setEnvironmentTool, setEnvironmentBody, h1]
  · simp [setEnvironmentTool, setEnvironmentBody, h1]

/-- C4 amended witness: one valid selection from the initial state yields
selection dev with exactly one newly pending revert. -/
theorem c4_amended_witness :
    (setEnvironmentTool "dev" ⟨"default", 0⟩).2.current = "dev" ∧
    (setEnvironmentTool "dev" ⟨"default", 0⟩).2.pendingReverts = 1 := by
  have h := c4_amended ⟨"default", 0⟩ "dev" (by decide)
  exact ⟨h.1, h.2.1⟩

set_option maxRecDepth 8000 in
/-- C9 counterexample: the raw-query default cap of the tools module wired
into the server is 1000, not 100 — with the limit argument omitted, a
200-row result is returned in full instead of truncated to 100 rows. -/
theorem c9_counterexample :
    queryDefaultLimit ≠ 100 ∧
    (queryToolEntry "select id from t limit 500".toList none 1
      (Except.ok (List.range 200))).outcome
      = Boundary.envelope (ToolReply.success (List.range 200) 200) :=
  ⟨by decide, by decide⟩

/-- C9 amended: the hard ceiling is 5000 and the default caps are 1000 for a
raw query and 1000 for analysis in the module wired into the server (the
logging revision of the tools module uses 100 for the raw-query default);
all are literal constants applied when the caller omits the limit. -/
theorem c9_amended :
    hardCeiling = 5000 ∧ queryDefaultLimit = 1000 ∧
    analyzeDefaultLimit = 1000 ∧ loggedQueryDefaultLimit = 100 ∧
    (∀ (α : Type) (query : List Char) (pool : Nat)
        (exec : Except String (List α)),
      queryToolEntry query none pool exec = queryTool query 1000 pool exec) ∧
    (∀ (α β : Type) (query code : List Char) (pool : Nat)
        (exec : Except String (List α))
        (evalCode : List α → Except String β),
      analyzeToolEntry query code none pool exec evalCode
        = analyzeTool query code 1000 pool exec evalCode) :=
  ⟨rfl, rfl, rfl, rfl, fun _ _ _ _ => rfl, fun _ _ _ _ _ _ _ => rfl⟩

/-- C10: any cap at most the hard ceiling, zero and negative caps included,
passes the cap check, and the returned rows are exactly the slice of the
result by that cap: cap 0 keeps no rows and cap -k keeps all but the last k
rows. -/
theorem c10_low_caps {α : Type} (query : List Char) (limit : Int) (pool : Nat)
    (rows : List α) (hcap : limit ≤ hardCeiling) :
    ((queryTool query limit pool (Except.ok rows)).outcome ≠
      Boundary.envelope (ToolReply.failure
        ("Error executing query: " ++ capErrMsg))) ∧
    (isReadOnlyQuery query = true → hasLimitClause query = true → pool ≠ 0 →
      (queryTool query limit pool (Except.ok rows)).outcome =
        Boundary.envelope (ToolReply.success (jsSliceTo rows limit)
          rows.length)) ∧
    jsSliceTo rows (0 : Int) = [] ∧
    (∀ k : Nat, 1 ≤ k → k ≤ rows.length →
      jsSliceTo rows (-(k : Int)) = rows.take (rows.length - k)) := by
  have hnotcap : ¬(hardCeiling < limit) := not_lt.mpr hcap
  refine ⟨?_, ?_, ?_, ?_⟩
  · cases hro : isReadOnlyQuery query with
    | false =>
        simp only [queryTool, queryBody, catchAll, hro]
        simp
        decide
    | true =>
        cases hlc : hasLimitClause query with
        | false =>
            simp only [queryTool, queryBody, catchAll, hro, hlc]
            simp
            decide
        | true =>
            by_cases hp : pool = 0
            · simp only [queryTool, queryBody, catchAll, hro, hlc]
              simp [hnotcap, hp]
              decide
            · simp only [queryTool, queryBody, catchAll, hro, hlc]
              simp [hnotcap, hp]
  · intro hro hlc hp
    simp only [queryTool, queryBody, catchAll, hro, hlc]
    simp [hnotcap, hp]
  · simp only [jsSliceTo]
    rw [if_neg (by omega : ¬((0 : Int) < 0)),
      min_eq_left (by omega : (0 : Int) ≤ (rows.length : Int))]
    rfl
  · intro k hk1 hk2
    simp only [jsSliceTo]
    rw [if_pos (by omega : -((k : Nat) : Int) < 0)]
    have h : (max ((rows.length : Int) + -((k : Nat) : Int)) 0).toNat
        = rows.length - k := by
      rw [max_eq_left (by omega : (0 : Int) ≤ (rows.length : Int) + -((k : Nat) : Int))]
      omega
    rw [h]

/-- C10 witness: with a cap of -1 on a two-row result the query path returns
the first row only, matching the slice semantics. -/
theorem c10_low_caps_witness :
    (queryTool "select 1 limit 1".toList (-1) 1
      (Except.ok ([10, 20] : List Nat))).outcome
      = Boundary.envelope (ToolReply.success [10] 2) ∧
    jsSliceTo ([10, 20] : List Nat) (-((1 : Nat) : Int)) = [10] := by
  have h := c10_low_caps "select 1 limit 1".toList (-1) 1
    ([10, 20] : List Nat) (by decide)
  constructor
  · exact h.2.1 (by decide) (by decide) (by decide)
  · have h4 := h.2.2.2 1 (by decide) (by decide)
    simpa using h4

end DataMcp
